import Mathlib

/-!
Verification of the country-list service in
`src/countries-app/app/(tabs)/index.tsx`.

The component keeps an in-memory list of countries, fetched once (and on
pull-to-refresh) from a REST endpoint, sorted with `localeCompare`,
filtered by a case-insensitive substring query, and rendered with a
compact population formatter.  The relevant logic is embedded below as
pure Lean functions over explicit state; JavaScript strings are modelled
by Lean `String` (lowercasing agrees on ASCII), JavaScript numbers
holding population counts by `Nat`, and the locale-dependent
`localeCompare` by an arbitrary integer-valued comparator parameter.
-/

namespace CountriesApp

/-- The nested `name` object of the `Country` type in the source
(`name: { common: string; official: string }`). -/
structure CountryName where
  common : String
  official : String
deriving DecidableEq

/-- The nested `flags` object of the `Country` type in the source
(`flags: { png: string }`). -/
structure CountryFlags where
  png : String
deriving DecidableEq

/-- The `Country` type of the source (index.tsx lines 13-20): the raw
remote JSON shape, used directly by the component.  `capital?: string[]`
is an optional array, hence `Option (List String)`. -/
structure Country where
  name : CountryName
  capital : Option (List String)
  population : Nat
  region : String
  flags : CountryFlags
  cca3 : String
deriving DecidableEq

/-- Model of JavaScript `String.prototype.toLowerCase`, character by
character.  `Char.toLower` agrees with JavaScript on ASCII letters;
the claims about the filter are structural and do not depend on the
exact case table. -/
def jsToLower (s : String) : String :=
  String.mk (s.data.map Char.toLower)

/-- Predicate `isPrefixList n h` holds when the character list `n` starts the
character list `h`; building block for `includesList`. -/
def isPrefixList : List Char → List Char → Bool
  | [], _ => true
  | _ :: _, [] => false
  | n :: ns, h :: hs => (n == h) && isPrefixList ns hs

/-- Model of JavaScript `String.prototype.includes` on character lists:
`includesList needle hay` scans `hay` left to right for an occurrence
of `needle`. -/
def includesList (needle : List Char) : List Char → Bool
  | [] => needle.isEmpty
  | h :: hs => isPrefixList needle (h :: hs) || includesList needle hs

/-- Model of `hay.includes(needle)` on strings. -/
def jsIncludes (hay needle : String) : Bool :=
  includesList needle.data hay.data

/-- The predicate the source filter applies to each country
(`c.name.common.toLowerCase().includes(query.toLowerCase())`,
index.tsx line 54). -/
def matchesQuery (query : String) (c : Country) : Bool :=
  jsIncludes (jsToLower c.name.common) (jsToLower query)

/-- The `filtered` view of the source (index.tsx lines 52-56):
`query ? countries.filter(...) : countries`.  A JavaScript string is
falsy exactly when it is empty, so the conditional tests `query = ""`. -/
def filtered (countries : List Country) (query : String) : List Country :=
  if query = "" then countries
  else countries.filter (fun c => matchesQuery query c)

/-- Spec-side notion of substring containment: `needle` occurs
contiguously inside `hay`. -/
def containsSub (needle hay : List Char) : Prop :=
  ∃ pre post, hay = pre ++ needle ++ post

theorem isPrefixList_iff (n h : List Char) :
    isPrefixList n h = true ↔ ∃ post, h = n ++ post := by
  induction n generalizing h with
  | nil => simp only [isPrefixList, true_iff]; exact ⟨h, rfl⟩
  | cons a ns ih =>
    cases h with
    | nil =>
      simp [isPrefixList]
    | cons b hs =>
      simp only [isPrefixList, Bool.and_eq_true, beq_iff_eq, ih]
      constructor
      · rintro ⟨rfl, post, rfl⟩
        exact ⟨post, rfl⟩
      · rintro ⟨post, hpost⟩
        cases hpost
        exact ⟨rfl, post, rfl⟩

theorem includesList_iff (n h : List Char) :
    includesList n h = true ↔ containsSub n h := by
  induction h with
  | nil =>
    simp only [includesList, List.isEmpty_iff, containsSub]
    constructor
    · rintro rfl
      exact ⟨[], [], rfl⟩
    · rintro ⟨pre, post, hp⟩
      exact (List.append_eq_nil.mp (List.append_eq_nil.mp hp.symm).1).2
  | cons b hs ih =>
    simp only [includesList, Bool.or_eq_true, isPrefixList_iff, ih, containsSub]
    constructor
    · rintro (⟨post, hp⟩ | ⟨pre, post, hp⟩)
      · exact ⟨[], post, by simpa using hp⟩
      · exact ⟨b :: pre, post, by simp [hp]⟩
    · rintro ⟨pre, post, hp⟩
      cases pre with
      | nil => exact Or.inl ⟨post, by simpa using hp⟩
      | cons c pre' =>
        right
        rcases List.cons_eq_cons.mp hp with ⟨_, htail⟩
        exact ⟨pre', post, htail⟩

/-- One comparator-driven insertion step of the sort model: place `a`
into `l` before the first element `b` with `cmp a b ≤ 0`. -/
def insertCmp {α : Type} (cmp : α → α → Int) (a : α) : List α → List α
  | [] => [a]
  | b :: l => if cmp a b ≤ 0 then a :: b :: l else b :: insertCmp cmp a l

/-- Model of JavaScript `Array.prototype.sort(cmp)`: a stable
comparison sort.  For a consistent comparator the result is a
permutation of the input ordered so that adjacent elements `a, b`
satisfy `cmp a b ≤ 0`; insertion sort realises exactly that. -/
def sortCmp {α : Type} (cmp : α → α → Int) : List α → List α
  | [] => []
  | a :: l => insertCmp cmp a (sortCmp cmp l)

/-- The comparator passed to `sort` in `load` (index.tsx lines 36-38):
`(a, b) => a.name.common.localeCompare(b.name.common)`, where the
locale-dependent `localeCompare` is the parameter `lc`. -/
def countryCmp (lc : String → String → Int) (a b : Country) : Int :=
  lc a.name.common b.name.common

/-- The successful branch of `load` (index.tsx lines 35-39): parse the
response into a list of countries and sort it by `commonName` under the
locale comparison. -/
def loadSuccess (lc : String → String → Int) (data : List Country) : List Country :=
  sortCmp (countryCmp lc) data

/-- The whole `load` function (index.tsx lines 30-46) as a state
transformer on the in-memory collection.  `response = some data` models
a fetch whose body parsed as a country array; `response = none` models
a network error or a body that failed to parse, in which case the
`catch` block only logs and `setCountries` is never called, so the
collection keeps its previous value.  `load` is total: no error
escapes. -/
def load (lc : String → String → Int) (response : Option (List Country))
    (countries : List Country) : List Country :=
  match response with
  | some data => loadSuccess lc data
  | none => countries

/-- Lexicographic three-way comparison of character lists. -/
def charListCmp : List Char → List Char → Int
  | [], [] => 0
  | [], _ :: _ => -1
  | _ :: _, [] => 1
  | a :: as, b :: bs => if a < b then -1 else if b < a then 1 else charListCmp as bs

/-- Concrete stand-in for `localeCompare` used on concrete inputs:
lexicographic comparison, which agrees with any sensible locale on
plain ASCII names such as "Aland" and "Zedland". -/
def strCmp (a b : String) : Int :=
  charListCmp a.data b.data

/-- Fuel-driven floor of the base-2 logarithm; `log2Aux n n` is
`⌊log2 n⌋` for `n ≥ 1` (halving at most `n` times), written with
structural recursion so that it reduces inside the kernel. -/
def log2Aux : Nat → Nat → Nat
  | 0, _ => 0
  | fuel + 1, n => if 2 ≤ n then log2Aux fuel (n / 2) + 1 else 0

/-- Floor of the base-2 logarithm, `floorLog2 n = ⌊log2 n⌋` for
`n ≥ 1`. -/
def floorLog2 (n : Nat) : Nat :=
  log2Aux n n

/-- The IEEE-754 binary64 result of dividing `a` by `b`, for quotients
`1 ≤ a / b < 2 ^ 971` (the M tier only divides `pop ≥ 1000000` by
`1000000`): the stored double is `m * 2 ^ e / 2 ^ 52` where
`2 ^ e ≤ a / b` pins the binade, the significand grid has spacing
`2 ^ e / 2 ^ 52`, and the exact quotient is rounded to the nearest grid
point with ties to the even significand, exactly as hardware division
rounds.  Returns the pair `(m, e)`. -/
def binary64DivSig (a b : Nat) : Nat × Nat :=
  let e := floorLog2 (a / b)
  let den := b * 2 ^ e
  let m0 := a * 2 ^ 52 / den
  let r2 := 2 * (a * 2 ^ 52 % den)
  let m := if den < r2 then m0 + 1 else if r2 < den then m0 else m0 + m0 % 2
  (m, e)

/-- Model of `(pop / 1000000).toFixed(1)` for a population count: the
division produces the binary64 double nearest to `pop / 1000000`, and
`toFixed(1)` then renders the integer nearest to ten times that stored
double, ties to the larger value (ECMAScript `Number.prototype.toFixed`),
as a one-decimal string.  With `(m, e)` the stored double's significand
and exponent, that integer is `⌊(10 * m * 2 ^ e + 2 ^ 51) / 2 ^ 52⌋`.
Faithful to the source whenever `pop` is an exact double, i.e.
`pop < 2 ^ 53`, which covers every real population count. -/
def toFixedOneM (pop : Nat) : String :=
  let d := (10 * (binary64DivSig pop 1000000).1 * 2 ^ (binary64DivSig pop 1000000).2
      + 2 ^ 51) / 2 ^ 52
  toString (d / 10) ++ "." ++ toString (d % 10)

/-- Model of `(pop / 1000).toFixed(0)`: the integer nearest to
`pop / 1000`, ties to the larger value. -/
def toFixedZeroK (pop : Nat) : String :=
  toString ((pop + 500) / 1000)

/-- Function `formatPopulation` from the source (index.tsx lines 58-65). -/
def formatPopulation (pop : Nat) : String :=
  if pop ≥ 1000000 then toFixedOneM pop ++ "M"
  else if pop ≥ 1000 then toFixedZeroK pop ++ "K"
  else toString pop

/-- Rounding to the nearest integer with ties upward, written as the
spec describes it: `num / den` rounded. -/
def specRound (num den : Nat) : Nat :=
  (2 * num + den) / (2 * den)

/-- The exact rational value of the binary64 double the program obtains
for `a / b`: significand times two to the exponent, scaled back by
`2 ^ 52`. -/
def doubleVal (a b : Nat) : ℚ :=
  ((binary64DivSig a b).1 : ℚ) * 2 ^ (binary64DivSig a b).2 / 2 ^ 52

/-- ECMAScript `toFixed(1)` digit count for a nonnegative value `x`:
the integer nearest to `10 * x`, ties to the larger value. -/
def fix1 (x : ℚ) : Int :=
  ⌊10 * x + 1 / 2⌋

theorem fix1_doubleVal (a b : Nat) :
    (fix1 (doubleVal a b)).toNat
      = (10 * (binary64DivSig a b).1 * 2 ^ (binary64DivSig a b).2 + 2 ^ 51) / 2 ^ 52 := by
  have hq : 10 * doubleVal a b + 1 / 2
      = ((10 * (binary64DivSig a b).1 * 2 ^ (binary64DivSig a b).2 + 2 ^ 51 : ℕ) : ℚ)
          / ((2 ^ 52 : ℕ) : ℚ) := by
    unfold doubleVal
    push_cast
    field_simp
    ring
  unfold fix1
  rw [hq, Int.floor_toNat, Nat.floor_div_eq_div]

/-- The internal `Country` shape named by the spec's data model. -/
structure SpecCountry where
  commonName : String
  capitalNames : List String
  population : Nat
  region : String
  flagImageUrl : String
  countryCode : String
deriving DecidableEq

/-- The normalization map the spec describes, from the raw remote JSON
shape to the internal representation: nested `name.common` becomes
`commonName`, the array-or-absent `capital` becomes a possibly empty
`capitalNames`, `flags.png` becomes `flagImageUrl` and `cca3` becomes
`countryCode`.  These are exactly the fields the component reads when
rendering a record. -/
def normalize (c : Country) : SpecCountry :=
  { commonName := c.name.common
    capitalNames := c.capital.getD []
    population := c.population
    region := c.region
    flagImageUrl := c.flags.png
    countryCode := c.cca3 }

/-- A call to the filter viewed with its effect on the state: the pair
of the collection after the call and the returned view.
`Array.prototype.filter` allocates a fresh array and never mutates its
receiver, and the callback on line 54 only reads `c`, so the collection
after the call is the collection before it. -/
def filteredCall (countries : List Country) (query : String) :
    List Country × List Country :=
  (countries, filtered countries query)

theorem insertCmp_perm {α : Type} (cmp : α → α → Int) (a : α) (l : List α) :
    List.Perm (insertCmp cmp a l) (a :: l) := by
  induction l with
  | nil => exact List.Perm.refl _
  | cons b t ih =>
    by_cases h : cmp a b ≤ 0
    · simp [insertCmp, h]
    · simp only [insertCmp, h, if_neg, ite_false]
      exact ((ih.cons b).trans (List.Perm.swap a b t))

theorem sortCmp_perm {α : Type} (cmp : α → α → Int) (l : List α) :
    List.Perm (sortCmp cmp l) l := by
  induction l with
  | nil => exact List.Perm.refl _
  | cons a t ih =>
    exact (insertCmp_perm cmp a (sortCmp cmp t)).trans (ih.cons a)

theorem mem_insertCmp {α : Type} (cmp : α → α → Int) (a x : α) (l : List α) :
    x ∈ insertCmp cmp a l ↔ x = a ∨ x ∈ l := by
  rw [(insertCmp_perm cmp a l).mem_iff]
  simp

theorem insertCmp_headElem {α : Type} (cmp : α → α → Int) (a : α) (l : List α) :
    (insertCmp cmp a l).head? = some a ∨ (insertCmp cmp a l).head? = l.head? := by
  cases l with
  | nil => exact Or.inl rfl
  | cons b t =>
    by_cases h : cmp a b ≤ 0
    · exact Or.inl (by simp [insertCmp, h])
    · exact Or.inr (by simp [insertCmp, h])

theorem insertCmp_chain' {α : Type} (cmp : α → α → Int) (a : α) (l : List α)
    (htot : ∀ b ∈ l, 0 < cmp a b → cmp b a ≤ 0)
    (hl : List.Chain' (fun x y => cmp x y ≤ 0) l) :
    List.Chain' (fun x y => cmp x y ≤ 0) (insertCmp cmp a l) := by
  induction l with
  | nil => simp [insertCmp]
  | cons b t ih =>
    by_cases h : cmp a b ≤ 0
    · simpa [insertCmp, h] using And.intro h hl
    · have hba : cmp b a ≤ 0 := by
        refine htot b (by simp) ?_
        omega
      have htail : List.Chain' (fun x y => cmp x y ≤ 0) t := hl.tail
      have hrec := ih (fun c hc hpos => htot c (List.mem_cons_of_mem b hc) hpos) htail
      simp only [insertCmp, h, ite_false]
      rw [List.chain'_cons']
      refine ⟨?_, hrec⟩
      intro y hy
      rcases insertCmp_headElem cmp a t with hh | hh
      · rw [hh] at hy
        cases hy
        exact hba
      · rw [hh] at hy
        cases t with
        | nil => simp at hy
        | cons c t' =>
          simp only [List.head?_cons, Option.mem_def, Option.some.injEq] at hy
          cases hy
          exact (List.chain'_cons.mp hl).1

theorem sortCmp_chain' {α : Type} (cmp : α → α → Int) (l : List α)
    (htot : ∀ x ∈ l, ∀ y ∈ l, 0 < cmp x y → cmp y x ≤ 0) :
    List.Chain' (fun x y => cmp x y ≤ 0) (sortCmp cmp l) := by
  induction l with
  | nil => simp [sortCmp]
  | cons a t ih =>
    have hrec := ih (fun x hx y hy => htot x (List.mem_cons_of_mem a hx) y (List.mem_cons_of_mem a hy))
    refine insertCmp_chain' cmp a (sortCmp cmp t) ?_ hrec
    intro b hb hpos
    have hbt : b ∈ t := (sortCmp_perm cmp t).mem_iff.mp hb
    exact htot a (by simp) b (List.mem_cons_of_mem a hbt) hpos

/-- Concrete record for the spec's mocked response entry `Aland`. -/
def alandMock : Country :=
  { name := { common := "Aland", official := "Aland Islands" }
    capital := some ["Mariehamn"]
    population := 30000
    region := "Europe"
    flags := { png := "https://flagcdn.com/w320/ax.png" }
    cca3 := "ALA" }

/-- Concrete record for the spec's mocked response entry `Zedland`. -/
def zedlandMock : Country :=
  { name := { common := "Zedland", official := "Republic of Zedland" }
    capital := none
    population := 1500000
    region := "Oceania"
    flags := { png := "https://example.com/zed.png" }
    cca3 := "ZED" }

/-- C1: for every collection `C` and non-empty query `q`, `filtered C q`
keeps exactly the members of `C` whose `commonName` contains `q` as a
case-insensitive substring — membership in the result is equivalent to
membership in `C` together with the lowercased query occurring
contiguously inside the lowercased name. -/
theorem filtered_mem_characterization (C : List Country) (q : String)
    (hq : q ≠ "") (c : Country) :
    c ∈ filtered C q ↔
      c ∈ C ∧ containsSub (jsToLower q).data (jsToLower c.name.common).data := by
  unfold filtered
  rw [if_neg hq, List.mem_filter]
  have hm : matchesQuery q c = true ↔
      containsSub (jsToLower q).data (jsToLower c.name.common).data := by
    unfold matchesQuery jsIncludes
    exact includesList_iff _ _
  rw [hm]

/-- Witness for C1 at a concrete collection and query. -/
theorem filtered_mem_characterization_witness :
    alandMock ∈ filtered [alandMock] "LAN" ↔
      alandMock ∈ [alandMock] ∧
        containsSub (jsToLower "LAN").data (jsToLower alandMock.name.common).data :=
  filtered_mem_characterization [alandMock] "LAN" (by decide) alandMock

/-- C2: filtering with the empty query returns the collection itself,
same elements in the same order. -/
theorem filtered_empty_query (C : List Country) : filtered C "" = C := by
  simp [filtered]

/-- C3: the sorted list produced by a successful `load` is ascending
under the locale comparison — every adjacent pair `(a, b)` satisfies
`lc a.name.common b.name.common ≤ 0` — whenever the comparator is
consistent on the data (a comparator reporting `a` after `b` reports
`b` not after `a`); and on the mocked response `[Zedland, Aland]` with
a lexicographic locale the result is `[Aland, Zedland]`. -/
theorem load_result_sorted :
    (∀ (lc : String → String → Int) (data : List Country),
      (∀ x ∈ data, ∀ y ∈ data, 0 < countryCmp lc x y → countryCmp lc y x ≤ 0) →
      List.Chain' (fun a b => countryCmp lc a b ≤ 0) (loadSuccess lc data))
    ∧ (loadSuccess strCmp [zedlandMock, alandMock]).map (fun c => c.name.common)
        = ["Aland", "Zedland"] := by
  constructor
  · intro lc data h
    exact sortCmp_chain' (countryCmp lc) data h
  · decide

/-- Witness for C3: the consistency hypothesis discharged on the
concrete mocked data with the lexicographic comparator. -/
theorem load_result_sorted_witness :
    List.Chain' (fun a b => countryCmp strCmp a b ≤ 0)
      (loadSuccess strCmp [zedlandMock, alandMock]) :=
  load_result_sorted.1 strCmp [zedlandMock, alandMock] (by decide)

/-- C4: when the fetch fails (`response = none`, covering both a network
error and an unparsable body) `load` returns without raising — it is a
total function — and leaves the collection exactly as it was, hence
empty on a failing first load. -/
theorem load_failure_keeps_collection (lc : String → String → Int)
    (prev : List Country) :
    load lc none prev = prev ∧ load lc none [] = [] :=
  ⟨rfl, rfl⟩

/-- C5: every record of a successful `load` result, read through the
spec's internal `Country` shape, is the normalization of a record the
remote source returned, and the normalization maps the raw fields
exactly as the spec's data model says (`name.common` to `commonName`,
array-or-absent `capital` to `capitalNames`, `flags.png` to
`flagImageUrl`, `cca3` to `countryCode`). -/
theorem load_records_normalized (lc : String → String → Int)
    (data : List Country) (c : Country) (hc : c ∈ loadSuccess lc data) :
    normalize c ∈ data.map normalize ∧
      normalize c =
        { commonName := c.name.common
          capitalNames := c.capital.getD []
          population := c.population
          region := c.region
          flagImageUrl := c.flags.png
          countryCode := c.cca3 } := by
  refine ⟨?_, rfl⟩
  exact List.mem_map_of_mem normalize ((sortCmp_perm _ data).mem_iff.mp hc)

/-- Witness for C5 on a concrete one-element response. -/
theorem load_records_normalized_witness :
    normalize alandMock ∈ [alandMock].map normalize ∧
      normalize alandMock =
        { commonName := alandMock.name.common
          capitalNames := alandMock.capital.getD []
          population := alandMock.population
          region := alandMock.region
          flagImageUrl := alandMock.flags.png
          countryCode := alandMock.cca3 } :=
  load_records_normalized strCmp [alandMock] alandMock (by decide)

/-- C6: a successful `load` result is a permutation of the records the
remote source returned — nothing dropped, duplicated or invented. -/
theorem load_result_perm (lc : String → String → Int) (data : List Country) :
    List.Perm (loadSuccess lc data) data :=
  sortCmp_perm (countryCmp lc) data

/-- C7 counterexample: at `n = 1150000` the program renders `"1.1M"`,
because the binary64 double nearest to `1.15` lies just below it and
`toFixed(1)` rounds the stored double down, while the claim's reading —
`n / 1000000` rounded exactly to one decimal — gives `"1.2M"`. -/
theorem formatPopulation_exact_rounding_refuted :
    formatPopulation 1150000 = "1.1M" ∧
      formatPopulation 1150000 ≠
        toString (specRound (10 * 1150000) 1000000 / 10) ++ "." ++
          toString (specRound (10 * 1150000) 1000000 % 10) ++ "M" := by
  refine ⟨by decide, by decide⟩

/-- C7 (amended): for `n ≥ 1000000` in the exact-double range,
`formatPopulation` renders the binary64 double obtained for
`n / 1000000`, rounded to one decimal with ties to the larger value,
followed by `"M"` — not the exactly rounded quotient, which differs
where the stored double falls on the other side of a decimal midpoint;
for `1000 ≤ n < 1000000` it renders `n / 1000` rounded to an integer
followed by `"K"`; below `1000` the plain decimal string; and the
spec's five sample values hold. -/
theorem formatPopulation_spec (n : Nat) :
    (1000000 ≤ n → n < 2 ^ 53 →
      formatPopulation n =
        toString ((fix1 (doubleVal n 1000000)).toNat / 10) ++ "." ++
          toString ((fix1 (doubleVal n 1000000)).toNat % 10) ++ "M")
    ∧ (1000 ≤ n → n < 1000000 →
        formatPopulation n = toString (specRound n 1000) ++ "K")
    ∧ (n < 1000 → formatPopulation n = toString n)
    ∧ formatPopulation 999 = "999"
    ∧ formatPopulation 1000 = "1K"
    ∧ formatPopulation 1500000 = "1.5M"
    ∧ formatPopulation 1000000 = "1.0M"
    ∧ formatPopulation 0 = "0" := by
  have hK : specRound n 1000 = (n + 500) / 1000 := by
    unfold specRound
    omega
  refine ⟨?_, ?_, ?_, by decide, by decide, by decide, by decide, by decide⟩
  · intro h _
    rw [fix1_doubleVal]
    simp [formatPopulation, toFixedOneM, h]
  · intro h1 h2
    rw [hK]
    have : ¬ n ≥ 1000000 := by omega
    simp [formatPopulation, toFixedZeroK, this, h1]
  · intro h
    have h1 : ¬ n ≥ 1000000 := by omega
    have h2 : ¬ n ≥ 1000 := by omega
    simp [formatPopulation, h1, h2]

/-- Witness for C7 at `n = 1500000`, in the millions tier. -/
theorem formatPopulation_spec_witness :
    formatPopulation 1500000 =
      toString ((fix1 (doubleVal 1500000 1000000)).toNat / 10) ++ "." ++
        toString ((fix1 (doubleVal 1500000 1000000)).toNat % 10) ++ "M" :=
  (formatPopulation_spec 1500000).1 (by decide) (by decide)

/-- C8: the filter is pure: computing it leaves the collection it was
given untouched (the state after the call equals the state before), and
calling it again on that state with the same query returns the same
view. -/
theorem filtered_is_pure (C : List Country) (q : String) :
    (filteredCall C q).1 = C ∧
      (filteredCall (filteredCall C q).1 q).2 = (filteredCall C q).2 :=
  ⟨rfl, rfl⟩

/-- C9: the filter preserves relative order: its result is a subsequence
of the input collection, and every member of the collection matching the
query appears in it — so the result is exactly the matching entries in
their original order. -/
theorem filtered_preserves_order (C : List Country) (q : String) :
    List.Sublist (filtered C q) C ∧
      ∀ c ∈ C, matchesQuery q c = true → c ∈ filtered C q := by
  constructor
  · unfold filtered
    split
    · exact List.Sublist.refl C
    · exact List.filter_sublist C
  · intro c hc hm
    unfold filtered
    split
    · exact hc
    · exact List.mem_filter.mpr ⟨hc, hm⟩

/-- Witness for C9 on a concrete collection, discharging the matching
hypothesis for the second conjunct. -/
theorem filtered_preserves_order_witness :
    List.Sublist (filtered [alandMock, zedlandMock] "lan") [alandMock, zedlandMock]
      ∧ alandMock ∈ filtered [alandMock, zedlandMock] "lan" :=
  ⟨(filtered_preserves_order [alandMock, zedlandMock] "lan").1,
    (filtered_preserves_order [alandMock, zedlandMock] "lan").2
      alandMock (by decide) (by decide)⟩

/-- C10: just below one million, rounding in the thousands tier can
reach four digits rather than switching to millions format:
`formatPopulation 999999` is `"1000K"`, not `"1.0M"`. -/
theorem formatPopulation_999999 :
    formatPopulation 999999 = "1000K" ∧ formatPopulation 999999 ≠ "1.0M" := by
  refine ⟨by decide, by decide⟩

end CountriesApp
